import Mathlib

/-
Verification of the revision-addressed session layer and the JSON row writer
of the dolt repository.

The JSON row writer is embedded directly from
go/libraries/doltcore/table/typed/json/writer.go. The session manager,
revision resolver and migration engine are not part of the provided sources
(only their integration tests are), so they are modelled from the spec; every
such definition carries a doc comment starting with "Modelled from the spec:".
-/

namespace DoltJson

/-- A JSON-encodable value as stored in the column-value map handed to
marshalToJson: models the dynamic interface values of writer.go. The vnull
constructor models a types.NullValue retrieved from a storage row. -/
inductive JVal where
  | vnull : JVal
  | vstr : String → JVal
  | vint : Int → JVal
  | vbool : Bool → JVal
deriving DecidableEq, Repr

/-- Test for the storage null value, modelling types.IsNull in writer.go. -/
def JVal.isNull : JVal → Bool
  | .vnull => true
  | _ => false

/-- Type identifiers of doltcore/schema/typeinfo that writer.go switches on. -/
inductive TypeId where
  | datetime
  | decimal
  | enum
  | inlineBlob
  | set
  | time
  | tuple
  | uuid
  | varBinary
  | year
  | bit
  | bool
  | varString
  | uint
  | int
  | float
deriving DecidableEq, Repr

/-- Type identifiers converted to their string form inside WriteRow
(writer.go lines 92-107): Datetime, Decimal, Enum, InlineBlob, Set, Time,
Tuple, Uuid, VarBinary and Year go through FormatValue; the primitive group
(Bit, Bool, VarString, Uint, Int, Float) is kept as is. -/
def formatGroupRow : TypeId → Bool
  | .datetime => true
  | .decimal => true
  | .enum => true
  | .inlineBlob => true
  | .set => true
  | .time => true
  | .tuple => true
  | .uuid => true
  | .varBinary => true
  | .year => true
  | _ => false

/-- Type identifiers converted to their string form inside WriteSqlRow
(writer.go lines 162-176): same group as WriteRow except Year, which
WriteSqlRow treats as a primitive (lines 178-184). -/
def formatGroupSql : TypeId → Bool
  | .datetime => true
  | .decimal => true
  | .enum => true
  | .inlineBlob => true
  | .set => true
  | .time => true
  | .tuple => true
  | .uuid => true
  | .varBinary => true
  | _ => false

/-- Rendering of a value to its string form. Models the external
typeinfo.FormatValue and SQL-value conversions invoked by writer.go for the
formatted type group; the typeinfo package is outside the provided sources,
so the rendering is modelled as a total canonical string form. -/
def renderVal : JVal → String
  | .vnull => "null"
  | .vstr s => s
  | .vint i => toString i
  | .vbool b => if b then "1" else "0"

/-- A column of the schema as seen by writer.go: its name, its storage tag
(key for row.Row.GetColVal), its index in a sql.Row (allCols.TagToIdx), and
its type identifier. -/
structure Column where
  name : String
  tag : Nat
  idx : Nat
  typeId : TypeId
deriving DecidableEq, Repr

/-- A storage row (row.Row): a finite map from column tag to value; a tag
absent from the list models GetColVal returning ok = false. -/
abbrev Row := List (Nat × JVal)

/-- GetColVal of writer.go line 87: lookup of the value stored at a tag. -/
def getColVal (r : Row) (tag : Nat) : Option JVal :=
  r.lookup tag

/-- Entry contributed by one column to the column-value map of WriteRow: a
column whose value is absent or null contributes nothing (writer.go lines
87-90); a value of the formatted type group is replaced by its string form
(lines 92-107); a primitive value is kept (lines 109-118). -/
def rowEntry (r : Row) (col : Column) : Option (String × JVal) :=
  match getColVal r col.tag with
  | none => none
  | some val =>
    if val.isNull then none
    else if formatGroupRow col.typeId then some (col.name, .vstr (renderVal val))
    else some (col.name, val)

/-- Column-value map built by the allCols.Iter closure of WriteRow
(writer.go lines 84-123), in schema column order. The Go code inserts into a
map keyed by column name; column names are unique within a schema, so the
map is modelled as the association list of contributed entries. -/
def buildColValMap (cols : List Column) (r : Row) : List (String × JVal) :=
  cols.foldl (fun m col =>
    match rowEntry r col with
    | none => m
    | some e => m ++ [e]) []

/-- A sql.Row: a positional list of values, nil modelled as none
(writer.go line 157). -/
abbrev SqlRow := List (Option JVal)

/-- Entry contributed by one column to the column-value map of WriteSqlRow:
the value at the column's index; nil contributes nothing (writer.go lines
157-160); the formatted group is converted to its string form, Year and the
other primitives are kept (lines 162-188). -/
def sqlRowEntry (r : SqlRow) (col : Column) : Option (String × JVal) :=
  match r.getD col.idx none with
  | none => none
  | some val =>
    if formatGroupSql col.typeId then some (col.name, .vstr (renderVal val))
    else some (col.name, val)

/-- Column-value map built by the allCols.Iter closure of WriteSqlRow
(writer.go lines 154-193). -/
def buildSqlColValMap (cols : List Column) (r : SqlRow) : List (String × JVal) :=
  cols.foldl (fun m col =>
    match sqlRowEntry r col with
    | none => m
    | some e => m ++ [e]) []

/-- JSON form of one value, as produced by the external encoding/json
package for the values writer.go puts in the map. String escaping beyond
quoting is elided (it never matters for the properties proved here). -/
def jvalToJson : JVal → String
  | .vnull => "null"
  | .vstr s => "\"" ++ s ++ "\""
  | .vint i => toString i
  | .vbool b => if b then "true" else "false"

/-- Insertion of an entry into a key-sorted association list, keeping the
list sorted by key. -/
def insertSorted (p : String × JVal) : List (String × JVal) → List (String × JVal)
  | [] => [p]
  | q :: qs => if p.1 ≤ q.1 then p :: q :: qs else q :: insertSorted p qs

/-- Stable sort of the column-value map by key. -/
def sortByName (l : List (String × JVal)) : List (String × JVal) :=
  l.foldr insertSorted []

/-- Concatenation of a list of strings with a separator between elements. -/
def sepConcat (sep : String) : List String → String
  | [] => ""
  | [x] => x
  | x :: xs => x ++ sep ++ sepConcat sep xs

/-- Serialization of the column-value map: models marshalToJson (writer.go
lines 244-253), which calls json.Marshal on a Go map keyed by column name;
encoding/json emits the keys of a map in sorted key order. -/
def marshalToJson (m : List (String × JVal)) : String :=
  let sorted := sortByName m
  "\x7b" ++ sepConcat "," (sorted.map (fun p => "\"" ++ p.1 ++ "\":" ++ jvalToJson p.2)) ++ "\x7d"

/-- Header constant jsonHeader of writer.go line 35. -/
def jsonHeader : String := "\x7b\"rows\": ["

/-- Footer constant jsonFooter of writer.go line 36. -/
def jsonFooter : String := "]\x7d"

/-- State of the JSON RowWriter (writer.go lines 41-49): configured header,
footer and separator strings, the schema columns, the count of rows written
so far, the bytes written to the underlying writer so far, and whether the
closer has been released (closer set to nil in Close). -/
structure RowWriter where
  header : String
  footer : String
  separator : String
  sch : List Column
  rowsWritten : Nat
  out : String
  closed : Bool
deriving DecidableEq, Repr

/-- NewJSONWriterWithHeader (writer.go lines 59-69): a fresh writer with the
given framing strings, zero rows written and nothing emitted. -/
def NewJSONWriterWithHeader (sch : List Column) (header footer separator : String) : RowWriter :=
  { header := header, footer := footer, separator := separator,
    sch := sch, rowsWritten := 0, out := "", closed := false }

/-- NewJSONWriter (writer.go lines 55-57): the default framing, a single
JSON object with one key "rows" holding the array of rows. -/
def NewJSONWriter (sch : List Column) : RowWriter :=
  NewJSONWriterWithHeader sch jsonHeader jsonFooter ","

/-- One successful WriteRow call (writer.go lines 76-144): if no rows were
written yet the header is emitted first; the column-value map is built and
marshalled; if rows were written before, the separator is emitted; then the
encoded row; finally rowsWritten is incremented. I/O error returns of the
underlying buffered writer are not modelled (the call is successful). -/
def WriteRow (j : RowWriter) (r : Row) : RowWriter :=
  let j1 := if j.rowsWritten = 0 then { j with out := j.out ++ j.header } else j
  let data := marshalToJson (buildColValMap j1.sch r)
  let j2 := if j1.rowsWritten ≠ 0 then { j1 with out := j1.out ++ j1.separator } else j1
  { j2 with out := j2.out ++ data, rowsWritten := j2.rowsWritten + 1 }

/-- One successful WriteSqlRow call (writer.go lines 146-214): identical
framing logic to WriteRow, with the map built from a sql.Row. -/
def WriteSqlRow (j : RowWriter) (r : SqlRow) : RowWriter :=
  let j1 := if j.rowsWritten = 0 then { j with out := j.out ++ j.header } else j
  let data := marshalToJson (buildSqlColValMap j1.sch r)
  let j2 := if j1.rowsWritten ≠ 0 then { j1 with out := j1.out ++ j1.separator } else j1
  { j2 with out := j2.out ++ data, rowsWritten := j2.rowsWritten + 1 }

/-- Close (writer.go lines 221-242): errors if the closer was already
released; otherwise emits the footer only when at least one row was written,
flushes, and releases the closer. -/
def RowWriter.Close (j : RowWriter) : Except String RowWriter :=
  if j.closed then .error "already closed"
  else .ok { j with out := j.out ++ (if 0 < j.rowsWritten then j.footer else ""), closed := true }

/-- Bytes emitted to the underlying writer by a single WriteRow call from
state j: the suffix the call appends to the output stream. -/
def emittedBy (j : RowWriter) (r : Row) : List Char :=
  (WriteRow j r).out.data.drop j.out.data.length

/-- Sequence of successful WriteRow calls. -/
def writeRows (j : RowWriter) (rs : List Row) : RowWriter :=
  rs.foldl WriteRow j

/-- Encoded bytes of one row under a schema, independent of writer state. -/
def encRow (sch : List Column) (r : Row) : String :=
  marshalToJson (buildColValMap sch r)

/-- Concatenation of a list of strings. -/
def strConcat : List String → String
  | [] => ""
  | x :: xs => x ++ strConcat xs

/-- Rows joined by a separator: the first row bare, every following row
prefixed by the separator. -/
def joined (sep : String) : List String → String
  | [] => ""
  | x :: xs => x ++ strConcat (xs.map (fun y => sep ++ y))

/-- The framing prefix a WriteRow call emits before the row payload: the
header on the first row, the separator on every later row. -/
def framing (j : RowWriter) : String :=
  if j.rowsWritten = 0 then j.header else j.separator


/-- Concrete one-column schema used to exercise the writer theorems. -/
def colsEx : List Column := [⟨"id", 0, 0, .int⟩]

/-- Concrete storage row for the schema colsEx. -/
def rowEx : Row := [(0, .vint 1)]

/-- Two-column schema with the second column's value absent in the storage
row and nil in the SQL row, exercising the omission theorem. -/
def colsEx2 : List Column := [⟨"id", 0, 0, .int⟩, ⟨"note", 1, 1, .varString⟩]

end DoltJson

namespace DoltSession

/-- Modelled from the spec (2, 4.3 Ref Table; the Ref Table implementation
is not among the provided sources): the mapping from human-readable names to
commit hashes, held as one consistent snapshot: branch entries, tag entries,
and the set of commit hashes present in the store's commit graph. -/
structure RefTable where
  branches : List (String × String)
  tags : List (String × String)
  commits : List String
deriving DecidableEq, Repr

/-- Existence of a branch name in the Ref Table snapshot. -/
def branchExists (rt : RefTable) (n : String) : Bool :=
  (rt.branches.lookup n).isSome

/-- Existence of a tag name in the Ref Table snapshot. -/
def tagExists (rt : RefTable) (n : String) : Bool :=
  (rt.tags.lookup n).isSome

/-- Existence of a commit hash in the store. -/
def commitExists (rt : RefTable) (h : String) : Bool :=
  rt.commits.contains h

/-- Modelled from the spec (4.1, 9): a character of a well-formed commit
hash (the base32 alphabet of content addresses). -/
def isHashChar (c : Char) : Bool :=
  c.isDigit || "abcdefghijklmnopqrstuv".toList.contains c

/-- Modelled from the spec (4.1): a well-formed commit hash or
ancestry-relative expression: a 32-character hash optionally followed by
ancestry modifier characters. The spec gives no finer grammar. -/
def wellFormedCommitExpr (s : String) : Bool :=
  32 ≤ s.length && (s.toList.take 32).all isHashChar
    && (s.toList.drop 32).all (fun c => c = '~' || c = '^')

/-- Modelled from the spec (4.1 alternative 3): resolution of a well-formed
commit expression against the store: the base hash must name an existing
commit; otherwise there is no match. -/
def resolveCommitExpr (rt : RefTable) (s : String) : Option String :=
  if wellFormedCommitExpr s then
    let base := (s.toList.take 32).asString
    if commitExists rt base then some base else none
  else none

/-- Modelled from the spec (4.1): the resolved target of a revision
specifier: a mutable branch reference (held by name), or an immutable tag or
commit target. -/
inductive RevTarget where
  | branch : String → RevTarget
  | tag : String → RevTarget
  | commit : String → RevTarget
deriving DecidableEq, Repr

/-- A branch target is the only mutable target kind (spec 4.1). -/
def RevTarget.isMutable : RevTarget → Bool
  | .branch _ => true
  | _ => false

/-- Modelled from the spec (7. error taxonomy and 4.2 failure conditions):
the structured session-level errors. -/
inductive SessionError where
  | revisionNotFound
  | defaultBranchUnavailable
  | notABranch
  | couldNotLoadDatabase
deriving DecidableEq, Repr

/-- Modelled from the spec (4.1 Revision Resolver): attempt in order an
exact branch name match (mutable target), an exact tag name match (immutable
target), and a well-formed commit expression (immutable target); the first
match wins, and no match is a revision-not-found error. A pure function of
the Ref Table snapshot: resolution has no side effect. -/
def resolveRevision (rt : RefTable) (s : String) : Except SessionError RevTarget :=
  if branchExists rt s then .ok (.branch s)
  else if tagExists rt s then .ok (.tag s)
  else
    match resolveCommitExpr rt s with
    | some h => .ok (.commit h)
    | none => .error .revisionNotFound

/-- Modelled from the spec (3. Data Model, 6. configuration surface): the
per-store shared state a session resolves against: the Ref Table snapshot
and the store-wide configurable default branch name. -/
structure Store where
  refs : RefTable
  defaultBranch : String
deriving DecidableEq, Repr

/-- Modelled from the spec (3. Data Model, Session): per-connection state:
the bound database name and the bound revision: an explicit revision
specifier string, or none for an implicit binding to the store default. The
session stores only names, never live pointers into the Ref Table. -/
structure Session where
  dbName : String
  revision : Option String
deriving DecidableEq, Repr

/-- Modelled from the spec (4.2): resolution is re-derived on every use: an
explicit revision goes through the Revision Resolver; an implicit binding
targets the store-wide default branch and fails with
default-branch-unavailable when that name is not in the Ref Table. -/
def resolveSession (st : Store) (s : Session) : Except SessionError RevTarget :=
  match s.revision with
  | some r => resolveRevision st.refs r
  | none =>
    if branchExists st.refs st.defaultBranch then .ok (.branch st.defaultBranch)
    else .error .defaultBranchUnavailable

/-- Result of a session-level operation: ok, a structured error value
returned to the caller, or crashed, standing for an unrecovered runtime
fault (panic) of the serving process; no operation of the model may produce
crashed (spec 7. propagation policy). -/
inductive Outcome (α : Type) where
  | ok : α → Outcome α
  | fail : SessionError → Outcome α
  | crashed : Outcome α
deriving DecidableEq, Repr

/-- Modelled from the spec (4.2, 8): the next read operation of a session:
re-resolves the session's target and returns the target snapshot or a
structured error, never a crash. -/
def nextOperation (st : Store) (s : Session) : Outcome RevTarget :=
  match resolveSession st s with
  | .ok t => .ok t
  | .error e => .fail e

/-- Modelled from the spec (4.2 Checkout and the deleted-branches tests):
checkout runs through a connection path that requires the session's database
to be currently loadable, so it first requires the store-wide default branch
to resolve and otherwise fails with could-not-load-database; it then
resolves the requested new revision independently of the session's current
(possibly invalid) target; a resolution miss is a structured error, an
immutable target is a not-a-branch error, and only on success does the
session's bound revision advance to the new specifier. -/
def checkout (st : Store) (s : Session) (r : String) : Outcome Session :=
  if !branchExists st.refs st.defaultBranch then .fail .couldNotLoadDatabase
  else
    match resolveRevision st.refs r with
    | .error e => .fail e
    | .ok t =>
      if t.isMutable then .ok { s with revision := some r }
      else .fail .notABranch

/-- Modelled from the spec (5, 6): the serving process: the shared store
plus the per-connection sessions. -/
structure ServerState where
  store : Store
  sessions : List Session
deriving DecidableEq, Repr

/-- Modelled from the spec (4.2): checkout applied to session i of the
server: on success only that session's entry is replaced; on any failure the
whole server state, in particular every session, is left unchanged. -/
def checkoutAt (g : ServerState) (i : Nat) (r : String) : Outcome Unit × ServerState :=
  match g.sessions[i]? with
  | none => (.fail .couldNotLoadDatabase, g)
  | some s =>
    match checkout g.store s r with
    | .ok s2 => (.ok (), { g with sessions := g.sessions.set i s2 })
    | .fail e => (.fail e, g)
    | .crashed => (.crashed, g)

/-- Modelled from the spec (4.3, 6): branch deletion removes the name from
the Ref Table; the commit it pointed to is untouched; deletion always
succeeds and is never blocked by sessions bound to the branch. -/
def deleteBranch (st : Store) (b : String) : Store :=
  { st with refs := { st.refs with
      branches := st.refs.branches.filter (fun p => p.1 != b) } }

/-- Modelled from the spec (4.2 policy item 4, 6. configuration surface):
the store-wide default branch name is ordinary mutable store configuration;
changing it is visible to every session's next resolution. -/
def setDefaultBranch (st : Store) (k : String) : Store :=
  { st with defaultBranch := k }

/-- Concrete Ref Table used by the witnesses: branches main and to keep, one
tag, one commit. -/
def rtEx : RefTable :=
  { branches := [("main", "00000000000000000000000000000001"), ("keep", "00000000000000000000000000000002")],
    tags := [("v1", "00000000000000000000000000000001"), ("main", "00000000000000000000000000000003")],
    commits := ["00000000000000000000000000000001", "00000000000000000000000000000002"] }

/-- Concrete store used by the witnesses. -/
def stEx : Store := { refs := rtEx, defaultBranch := "main" }

/-- Concrete implicitly-bound session used by the witnesses. -/
def sImplicit : Session := { dbName := "repo", revision := none }

/-- Concrete explicitly-bound session used by the witnesses. -/
def sKeep : Session := { dbName := "repo", revision := some "keep" }

/-- Concrete store whose default branch names no existing branch. -/
def stBad : Store := { refs := rtEx, defaultBranch := "ghost" }

/-- Concrete server state with two sessions used by the witnesses. -/
def gEx : ServerState := { store := stEx, sessions := [sImplicit, sKeep] }

/-- Concrete session explicitly bound to the branch main. -/
def sMain : Session := { dbName := "repo", revision := some "main" }

/-- Concrete store whose single branch is named by a well-formed commit hash
that also exists as a commit. -/
def stHashBr : Store :=
  { refs := { branches := [("00000000000000000000000000000001", "00000000000000000000000000000002")],
              tags := [],
              commits := ["00000000000000000000000000000001"] },
    defaultBranch := "00000000000000000000000000000001" }

/-- Concrete session explicitly bound to the hash-named branch of
stHashBr. -/
def sHash : Session := { dbName := "repo", revision := some "00000000000000000000000000000001" }

end DoltSession
namespace DoltMigrate

/-- Modelled from the spec (2 Chunk Store, 9; the migration engine is not
among the provided sources): a content address: the format version of the
codec the unit was encoded under plus the address its encoded content hashes
to. Re-encoding under a different codec changes the encoded bytes and with
them the content hash, which the model reflects in the version component. -/
structure Hash where
  version : Nat
  addr : Nat
deriving DecidableEq, Repr

/-- Modelled from the spec (3. Data Model, Commit): the logical content of a
commit unit: its metadata and the rows of its table snapshot, independent of
the storage encoding. -/
structure CommitData where
  meta : String
  rows : List (List String)
deriving DecidableEq, Repr

/-- Modelled from the spec (2 Commit Graph): one structural unit of the
commit graph: its parent hash set and its logical content. -/
structure Node where
  parents : List Hash
  data : CommitData
deriving DecidableEq, Repr

/-- Format version code of the old codec. -/
def oldVersion : Nat := 0

/-- Format version code of the new codec. -/
def newVersion : Nat := 1

/-- Modelled from the spec (4.4 step 3): the old-hash to new-hash
translation of one unit: the logical content keeps its address, the codec
version changes, so the translated hash always differs from the old one. -/
def translateHash (h : Hash) : Hash :=
  { version := newVersion, addr := h.addr }

/-- Modelled from the spec (4.4 step 2): re-encoding of one unit under the
new codec: parent references are rewritten through the translation table,
the logical content is preserved unchanged. -/
def translateNode (n : Node) : Node :=
  { parents := n.parents.map translateHash, data := n.data }

/-- Modelled from the spec (3 Manifest, 4.4): the store as the migration
engine sees it: the manifest's format version, the reachable commit graph as
a map from content hash to unit, and the Ref Table's branches and tags. -/
structure MigStore where
  formatVersion : Nat
  graph : List (Hash × Node)
  branches : List (String × Hash)
  tags : List (String × Hash)
deriving DecidableEq, Repr

/-- Decoding of the unit stored at a hash. -/
def lookupNode (s : MigStore) (h : Hash) : Option Node :=
  s.graph.lookup h

/-- Logical content decoded at a hash: row values and commit metadata. -/
def logicalContent (s : MigStore) (h : Hash) : Option CommitData :=
  (lookupNode s h).map Node.data

/-- Modelled from the spec (4.4 steps 2-5): migration re-encodes every
reachable unit under the new codec at its newly computed content hash,
rewrites every branch and tag to the translated hash of its former target,
and swaps the manifest to the new format version. -/
def migrate (s : MigStore) : MigStore :=
  { formatVersion := newVersion,
    graph := s.graph.map (fun p => (translateHash p.1, translateNode p.2)),
    branches := s.branches.map (fun p => (p.1, translateHash p.2)),
    tags := s.tags.map (fun p => (p.1, translateHash p.2)) }

/-- Well-formedness of a pre-migration store: the manifest carries the old
format version, every unit is addressed by an old-format hash, distinct
units have distinct addresses, and every branch and tag points at an
old-format hash. -/
def WF (s : MigStore) : Prop :=
  s.formatVersion = oldVersion
    ∧ (∀ p ∈ s.graph, (Prod.fst p).version = oldVersion)
    ∧ (s.graph.map (fun p => (Prod.fst p).addr)).Nodup
    ∧ (∀ p ∈ s.branches, (Prod.snd p).version = oldVersion)
    ∧ (∀ p ∈ s.tags, (Prod.snd p).version = oldVersion)

/-- Modelled from the spec (4.4, 7): the fallible translation phase: units
are re-encoded in traversal order; enc says whether the new codec can encode
a unit; the first unit that fails aborts the whole phase, the partially
built translation is discarded, and the error carries the failing unit's
hash. -/
def migrateUnits (enc : Node → Bool) : List (Hash × Node) → Except Hash (List (Hash × Node))
  | [] => .ok []
  | p :: rest =>
    if enc p.2 then
      match migrateUnits enc rest with
      | .ok acc => .ok ((translateHash p.1, translateNode p.2) :: acc)
      | .error e => .error e
    else .error p.1

/-- Modelled from the spec (4.4): the whole migration: on success the
manifest is swapped to the new format version with the translated graph and
rewritten Ref Table; on failure the error of the first failing unit is
surfaced. -/
def runMigration (enc : Node → Bool) (s : MigStore) : Except Hash MigStore :=
  match migrateUnits enc s.graph with
  | .error e => .error e
  | .ok g2 =>
    .ok { formatVersion := newVersion,
          graph := g2,
          branches := s.branches.map (fun p => (p.1, translateHash p.2)),
          tags := s.tags.map (fun p => (p.1, translateHash p.2)) }

/-- Modelled from the spec (4.4, 7): the store-level result of attempting a
migration: on failure the old manifest remains the authoritative store state
and the aggregate error is reported beside it. -/
def applyMigration (enc : Node → Bool) (s : MigStore) : MigStore × Option Hash :=
  match runMigration enc s with
  | .ok s2 => (s2, none)
  | .error e => (s, some e)

/-- Concrete pre-migration store used by the witnesses: two commits, a
branch main at the second and a tag v1 at the first. -/
def msEx : MigStore :=
  { formatVersion := 0,
    graph := [(⟨0, 10⟩, ⟨[], ⟨"root", [["1", "ACADEMY DINOSAUR"]]⟩⟩),
              (⟨0, 11⟩, ⟨[⟨0, 10⟩], ⟨"second", [["1", "ACADEMY DINOSAUR"], ["2", "ACE GOLDFINGER"]]⟩⟩)],
    branches := [("main", ⟨0, 11⟩)],
    tags := [("v1", ⟨0, 10⟩)] }

/-- New codec that fails exactly on the unit whose metadata reads second,
the second unit of the concrete store's traversal order. -/
def encFail (n : Node) : Bool := n.data.meta != "second"

end DoltMigrate
namespace DoltJson

theorem WriteRow_eq (j : RowWriter) (r : Row) :
    WriteRow j r = { j with out := j.out ++ (framing j ++ encRow j.sch r),
                            rowsWritten := j.rowsWritten + 1 } := by
  unfold WriteRow framing encRow
  by_cases h : j.rowsWritten = 0 <;>
    simp [h, String.append_assoc]

theorem emittedBy_eq (j : RowWriter) (r : Row) :
    emittedBy j r = (framing j ++ encRow j.sch r).data := by
  unfold emittedBy
  rw [WriteRow_eq]
  simp [String.data_append, List.drop_left]

theorem writeRows_pos (rs : List Row) (j : RowWriter) (h : j.rowsWritten ≠ 0) :
    writeRows j rs = { j with
      out := j.out ++ strConcat (rs.map (fun r => j.separator ++ encRow j.sch r)),
      rowsWritten := j.rowsWritten + rs.length } := by
  induction rs generalizing j with
  | nil => simp [writeRows, String.append_empty, strConcat]
  | cons r rest ih =>
    have hstep : writeRows j (r :: rest) = writeRows (WriteRow j r) rest := rfl
    rw [hstep, WriteRow_eq j r, ih _ (by simp)]
    simp [framing, h, strConcat, String.append_assoc]
    omega

theorem foldl_entry_append {α : Type} (f : α → Option (String × JVal)) (l : List α)
    (acc : List (String × JVal)) :
    l.foldl (fun m a => m ++ (f a).toList) acc = acc ++ l.filterMap f := by
  induction l generalizing acc with
  | nil => simp
  | cons a l ih => cases h : f a <;> simp [List.filterMap_cons, h, ih]

theorem buildColValMap_eq (cols : List Column) (r : Row) :
    buildColValMap cols r = cols.filterMap (rowEntry r) := by
  have h : buildColValMap cols r
      = cols.foldl (fun m col => m ++ (rowEntry r col).toList) [] := by
    unfold buildColValMap
    refine congrFun (congrFun (congrArg List.foldl ?_) []) cols
    funext m col
    cases rowEntry r col <;> simp
  rw [h, foldl_entry_append]
  simp

theorem buildSqlColValMap_eq (cols : List Column) (r : SqlRow) :
    buildSqlColValMap cols r = cols.filterMap (sqlRowEntry r) := by
  have h : buildSqlColValMap cols r
      = cols.foldl (fun m col => m ++ (sqlRowEntry r col).toList) [] := by
    unfold buildSqlColValMap
    refine congrFun (congrFun (congrArg List.foldl ?_) []) cols
    funext m col
    cases sqlRowEntry r col <;> simp
  rw [h, foldl_entry_append]
  simp

theorem rowEntry_name (r : Row) (col : Column) (p : String × JVal)
    (h : rowEntry r col = some p) : p.1 = col.name := by
  unfold rowEntry at h
  cases hv : getColVal r col.tag with
  | none => rw [hv] at h; exact absurd h (by simp)
  | some v =>
    rw [hv] at h
    by_cases hn : v.isNull
    · simp [hn] at h
    · by_cases hf : formatGroupRow col.typeId <;> simp [hn, hf] at h <;> rw [← h]

theorem sqlRowEntry_name (r : SqlRow) (col : Column) (p : String × JVal)
    (h : sqlRowEntry r col = some p) : p.1 = col.name := by
  unfold sqlRowEntry at h
  cases hv : r.getD col.idx none with
  | none => rw [hv] at h; exact absurd h (by simp)
  | some v =>
    rw [hv] at h
    by_cases hf : formatGroupSql col.typeId <;> simp [hf] at h <;> rw [← h]

end DoltJson
namespace DoltJson

/-- C9: for every sequence of n successful WriteRow calls on a JSON
RowWriter followed by a successful Close: if n is at least 1 the total
output is the header, then the n encoded rows joined by the separator, then
the footer; if n = 0 Close emits neither header nor footer and the total
output is empty. -/
theorem json_writer_output_shape (sch : List Column) (header footer sep : String)
    (rs : List Row) :
    ((writeRows (NewJSONWriterWithHeader sch header footer sep) rs).Close).toOption.map RowWriter.out
      = some (if rs.isEmpty then ""
              else header ++ joined sep (rs.map (encRow sch)) ++ footer) := by
  cases rs with
  | nil =>
    simp only [writeRows, List.foldl_nil, List.isEmpty_nil, if_true]
    simp [NewJSONWriterWithHeader, RowWriter.Close]
    exact ⟨_, rfl, rfl⟩
  | cons r rest =>
    have h1 : writeRows (NewJSONWriterWithHeader sch header footer sep) (r :: rest)
        = writeRows (WriteRow (NewJSONWriterWithHeader sch header footer sep) r) rest := rfl
    rw [h1, WriteRow_eq, writeRows_pos rest _ (by simp [NewJSONWriterWithHeader])]
    simp [NewJSONWriterWithHeader, RowWriter.Close, framing, joined, strConcat,
      String.append_assoc, String.empty_append, List.map_map, Function.comp]
    exact ⟨_, rfl, by simp [Function.comp_def]⟩
/-- C8 (counterexample): the bytes emitted by WriteRow for one and the same
row differ between a fresh writer and a writer that has already written a
row: the first emission is prefixed by the header, the second by the
separator, so the writer is not stateless. -/
theorem json_writer_not_stateless :
    ¬ (emittedBy (NewJSONWriter colsEx) rowEx
        = emittedBy (WriteRow (NewJSONWriter colsEx) rowEx) rowEx) := by
  decide

/-- C8 (amended): the encoded row payload depends only on the row and the
schema: for two writers sharing a schema, in arbitrary states, a WriteRow
call for the same row emits the identical payload bytes, preceded by a
framing prefix (the header when the writer has written no rows, the
separator otherwise) that is the only state-dependent part of the
emission. -/
theorem json_writer_payload_state_independent (j1 j2 : RowWriter) (r : Row)
    (hsch : j1.sch = j2.sch) :
    emittedBy j1 r = (framing j1).data ++ (encRow j1.sch r).data
      ∧ emittedBy j2 r = (framing j2).data ++ (encRow j1.sch r).data := by
  constructor
  · rw [emittedBy_eq, String.data_append]
  · rw [emittedBy_eq, String.data_append, hsch]

/-- Witness for the amended C8 theorem at a concrete schema, row and pair of
writer states. -/
theorem json_writer_payload_state_independent_witness :
    emittedBy (NewJSONWriter colsEx) rowEx
        = (framing (NewJSONWriter colsEx)).data ++ (encRow (NewJSONWriter colsEx).sch rowEx).data
      ∧ emittedBy (WriteRow (NewJSONWriter colsEx) rowEx) rowEx
        = (framing (WriteRow (NewJSONWriter colsEx) rowEx)).data
            ++ (encRow (NewJSONWriter colsEx).sch rowEx).data :=
  json_writer_payload_state_independent (NewJSONWriter colsEx)
    (WriteRow (NewJSONWriter colsEx) rowEx) rowEx rfl

/-- C10: a column whose value is absent or NULL in the row contributes no
key to the JSON object emitted for that row, both for storage rows
(WriteRow: GetColVal not ok, or a null value) and for SQL rows
(WriteSqlRow: a nil value), rather than being serialized as a JSON null. -/
theorem null_or_absent_column_omitted (cols : List Column) (r : Row) (sr : SqlRow)
    (c : Column) (hnd : (cols.map Column.name).Nodup) (hc : c ∈ cols) :
    ((∀ v, getColVal r c.tag = some v → v.isNull = true) →
        c.name ∉ (buildColValMap cols r).map Prod.fst)
      ∧ (sr.getD c.idx none = none →
        c.name ∉ (buildSqlColValMap cols sr).map Prod.fst) := by
  constructor
  · intro habs hmem
    rw [buildColValMap_eq] at hmem
    obtain ⟨p, hp, hpn⟩ := List.mem_map.mp hmem
    obtain ⟨col, hcol, hentry⟩ := List.mem_filterMap.mp hp
    have hname : col.name = c.name := by rw [← rowEntry_name r col p hentry, hpn]
    have hceq : col = c := List.inj_on_of_nodup_map hnd hcol hc hname
    subst hceq
    have hnone : rowEntry r col = none := by
      unfold rowEntry
      cases hv : getColVal r col.tag with
      | none => rfl
      | some v => simp [habs v hv]
    rw [hnone] at hentry
    exact absurd hentry (by simp)
  · intro habs hmem
    rw [buildSqlColValMap_eq] at hmem
    obtain ⟨p, hp, hpn⟩ := List.mem_map.mp hmem
    obtain ⟨col, hcol, hentry⟩ := List.mem_filterMap.mp hp
    have hname : col.name = c.name := by rw [← sqlRowEntry_name sr col p hentry, hpn]
    have hceq : col = c := List.inj_on_of_nodup_map hnd hcol hc hname
    subst hceq
    have hnone : sqlRowEntry sr col = none := by
      unfold sqlRowEntry
      rw [habs]
    rw [hnone] at hentry
    exact absurd hentry (by simp)

/-- Witness for the omission theorem: in the concrete two-column schema the
key of the absent column does not appear in either column-value map. -/
theorem null_or_absent_column_omitted_witness :
    "note" ∉ (buildColValMap colsEx2 rowEx).map Prod.fst
      ∧ "note" ∉ (buildSqlColValMap colsEx2 [some (.vint 1), none]).map Prod.fst := by
  have h := null_or_absent_column_omitted colsEx2 rowEx [some (.vint 1), none]
    ⟨"note", 1, 1, .varString⟩ (by decide) (by decide)
  exact ⟨h.1 (by decide), h.2 (by decide)⟩

end DoltJson

namespace DoltSession

theorem lookup_cons {β : Type} (k a : String) (v : β) (l : List (String × β)) :
    ((k, v) :: l).lookup a = if a = k then some v else l.lookup a := by
  cases h : a == k with
  | true =>
    have hak : a = k := beq_iff_eq.mp h
    simp [List.lookup, h, hak]
  | false =>
    have hak : a ≠ k := by
      intro he
      rw [he] at h
      simp at h
    simp [List.lookup, h, hak]

theorem lookup_filter_ne {β : Type} (l : List (String × β)) (b c : String) (h : c ≠ b) :
    (l.filter (fun p => p.1 != b)).lookup c = l.lookup c := by
  induction l with
  | nil => rfl
  | cons p l ih =>
    cases p with
    | mk k v =>
      rw [List.filter_cons]
      by_cases hpb : k = b
      · rw [if_neg (by simp [hpb])]
        rw [ih, lookup_cons]
        rw [if_neg (by rw [hpb]; exact h)]
      · rw [if_pos (by simp [hpb])]
        rw [lookup_cons, lookup_cons, ih]

theorem branchExists_deleteBranch (st : Store) (b c : String) (h : c ≠ b) :
    branchExists (deleteBranch st b).refs c = branchExists st.refs c := by
  unfold branchExists deleteBranch
  rw [lookup_filter_ne _ _ _ h]

theorem lookup_filter_self {β : Type} (l : List (String × β)) (b : String) :
    (l.filter (fun p => p.1 != b)).lookup b = none := by
  induction l with
  | nil => rfl
  | cons p l ih =>
    cases p with
    | mk k v =>
      rw [List.filter_cons]
      by_cases hpb : k = b
      · rw [if_neg (by simp [hpb])]
        exact ih
      · rw [if_pos (by simp [hpb])]
        rw [lookup_cons, if_neg (fun he => hpb he.symm)]
        exact ih

theorem branchExists_deleteBranch_self (st : Store) (b : String) :
    branchExists (deleteBranch st b).refs b = false := by
  unfold branchExists deleteBranch
  rw [lookup_filter_self]
  rfl

theorem tagExists_deleteBranch (st : Store) (b n : String) :
    tagExists (deleteBranch st b).refs n = tagExists st.refs n := rfl

theorem resolveCommitExpr_deleteBranch (st : Store) (b x : String) :
    resolveCommitExpr (deleteBranch st b).refs x = resolveCommitExpr st.refs x := rfl

/-- C7: for a revision specifier the Revision Resolver attempts, in strict
priority order, an exact branch name match (a mutable target), an exact tag
name match (an immutable target), and a well-formed commit expression (an
immutable target); the first match wins, and when no alternative matches,
resolution fails with the structured revision-not-found error. The resolver
is a pure function of the Ref Table snapshot, so it has no side effect. -/
theorem revision_resolver_priority (rt : RefTable) (s : String) :
    (branchExists rt s = true →
        resolveRevision rt s = .ok (.branch s) ∧ (RevTarget.branch s).isMutable = true)
      ∧ (branchExists rt s = false → tagExists rt s = true →
        resolveRevision rt s = .ok (.tag s) ∧ (RevTarget.tag s).isMutable = false)
      ∧ (∀ h, branchExists rt s = false → tagExists rt s = false →
        resolveCommitExpr rt s = some h →
        resolveRevision rt s = .ok (.commit h) ∧ (RevTarget.commit h).isMutable = false)
      ∧ (branchExists rt s = false → tagExists rt s = false →
        resolveCommitExpr rt s = none →
        resolveRevision rt s = .error .revisionNotFound) := by
  refine ⟨?_, ?_, ?_, ?_⟩ <;> intros <;>
    simp_all [resolveRevision, RevTarget.isMutable]

/-- Witness: in the concrete Ref Table the name main is both a branch and a
tag and resolves as a branch; v1 resolves as a tag; a well-formed existing
hash resolves as a commit; an unknown name is a revision-not-found error. -/
theorem revision_resolver_priority_witness :
    resolveRevision rtEx "main" = .ok (.branch "main")
      ∧ resolveRevision rtEx "v1" = .ok (.tag "v1")
      ∧ resolveRevision rtEx "00000000000000000000000000000002"
          = .ok (.commit "00000000000000000000000000000002")
      ∧ resolveRevision rtEx "ghost" = .error .revisionNotFound := by
  refine ⟨((revision_resolver_priority rtEx "main").1 (by decide)).1,
    ((revision_resolver_priority rtEx "v1").2.1 (by decide) (by decide)).1,
    ((revision_resolver_priority rtEx "00000000000000000000000000000002").2.2.1
      "00000000000000000000000000000002" (by decide) (by decide) (by decide)).1,
    (revision_resolver_priority rtEx "ghost").2.2.2 (by decide) (by decide) (by decide)⟩

/-- C1: every session-level failure is reported as a structured error value,
never as an unrecovered runtime fault: a session's next operation and a
checkout can never produce a crash, and a checkout attempted from a session
whose default branch is invalid or deleted fails with the structured
could-not-load-database error. -/
theorem session_failures_are_structured (st : Store) (s : Session) (r : String) :
    nextOperation st s ≠ .crashed
      ∧ checkout st s r ≠ .crashed
      ∧ (branchExists st.refs st.defaultBranch = false →
          checkout st s r = .fail .couldNotLoadDatabase) := by
  refine ⟨?_, ?_, ?_⟩
  · unfold nextOperation
    cases resolveSession st s <;> simp
  · unfold checkout
    by_cases h : branchExists st.refs st.defaultBranch
    · simp only [h, Bool.not_true, Bool.false_eq_true, if_false]
      cases resolveRevision st.refs r with
      | error e => simp
      | ok t => by_cases hm : t.isMutable <;> simp [hm]
    · simp [h]
  · intro h
    unfold checkout
    simp [h]

/-- Witness: with the default branch set to a nonexistent name, a checkout
from an explicitly bound session fails with could-not-load-database and
nothing crashes. -/
theorem session_failures_are_structured_witness :
    nextOperation stBad sKeep ≠ .crashed
      ∧ checkout stBad sKeep "keep" ≠ .crashed
      ∧ checkout stBad sKeep "keep" = .fail .couldNotLoadDatabase := by
  have h := session_failures_are_structured stBad sKeep "keep"
  exact ⟨h.1, h.2.1, h.2.2 (by decide)⟩

/-- C2: checkout is atomic with respect to the session's own state: when it
fails the whole server state, in particular the failing session's bound
revision target and with it its subsequent resolution, is exactly the
pre-call state; and whether it succeeds or fails it never mutates any other
session nor the shared store. -/
theorem checkout_atomic (g : ServerState) (i : Nat) (r : String) :
    (∀ e, (checkoutAt g i r).1 = .fail e → (checkoutAt g i r).2 = g)
      ∧ (∀ j, j ≠ i → ((checkoutAt g i r).2).sessions[j]? = g.sessions[j]?)
      ∧ ((checkoutAt g i r).2).store = g.store := by
  cases hs : g.sessions[i]? with
  | none =>
    simp only [checkoutAt, hs]
    exact ⟨fun e _ => trivial, fun j _ => trivial, trivial⟩
  | some s =>
    cases hc : checkout g.store s r with
    | ok s2 =>
      simp only [checkoutAt, hs, hc]
      refine ⟨fun e he => ?_, fun j hj => ?_, trivial⟩
      · exact absurd he (by simp)
      · exact List.getElem?_set_ne (fun he => hj he.symm)
    | fail e2 =>
      simp only [checkoutAt, hs, hc]
      exact ⟨fun e _ => trivial, fun j _ => trivial, trivial⟩
    | crashed =>
      simp only [checkoutAt, hs, hc]
      exact ⟨fun e _ => trivial, fun j _ => trivial, trivial⟩

/-- Witness: a failing checkout to a nonexistent branch leaves the concrete
two-session server state unchanged, and the other session's entry is
untouched. -/
theorem checkout_atomic_witness :
    (checkoutAt gEx 1 "ghost").2 = gEx
      ∧ ((checkoutAt gEx 1 "ghost").2).sessions[0]? = gEx.sessions[0]? := by
  have h := checkout_atomic gEx 1 "ghost"
  exact ⟨h.1 .revisionNotFound (by decide), h.2.1 0 (by decide)⟩

/-- C3 (counterexample): a session explicitly bound to the branch main,
after branch main is deleted in a Ref Table that also holds a tag named
main, neither falls back to a default nor fails with a structured error: its
next operation succeeds, resolving the name at the next priority level to
the immutable tag target, so the claim's explicit-binding arm (always an
Unavailable/NotFound failure) does not hold as stated. -/
theorem delete_branch_explicit_target_cex :
    nextOperation (deleteBranch stEx "main") sMain = .ok (.tag "main")
      ∧ ¬ (nextOperation (deleteBranch stEx "main") sMain = .fail .revisionNotFound)
      ∧ ¬ (nextOperation (deleteBranch stEx "main") sMain
            = .fail .defaultBranchUnavailable)
      ∧ ¬ (nextOperation (deleteBranch stEx "main") sMain
            = .ok (.branch stEx.defaultBranch)) := by
  decide

/-- C3 (amended): deleting a branch never crashes a session: after the
deletion the session's next operation is never a crash; an implicitly bound
session resolves to the configured default branch when that branch still
exists and otherwise fails with the structured default-branch-unavailable
error, deterministically; a session explicitly bound to a different branch
that still exists resolves exactly as it did before the deletion; and a
session explicitly bound to the deleted branch itself fails with the
structured revision-not-found error unless the deleted name still matches a
lower-priority alternative of the resolver, in which case it resolves to
that immutable tag or commit target. -/
theorem delete_branch_session_safe (st : Store) (s : Session) (b : String) :
    nextOperation (deleteBranch st b) s ≠ .crashed
      ∧ (s.revision = none →
          (branchExists (deleteBranch st b).refs st.defaultBranch = true →
            nextOperation (deleteBranch st b) s = .ok (.branch st.defaultBranch))
          ∧ (branchExists (deleteBranch st b).refs st.defaultBranch = false →
            nextOperation (deleteBranch st b) s = .fail .defaultBranchUnavailable))
      ∧ (∀ c, s.revision = some c → c ≠ b → branchExists st.refs c = true →
          nextOperation (deleteBranch st b) s = .ok (.branch c)
            ∧ nextOperation st s = .ok (.branch c))
      ∧ (s.revision = some b →
          (tagExists st.refs b = false → resolveCommitExpr st.refs b = none →
            nextOperation (deleteBranch st b) s = .fail .revisionNotFound)
          ∧ (tagExists st.refs b = true →
            nextOperation (deleteBranch st b) s = .ok (.tag b))
          ∧ (∀ h, tagExists st.refs b = false → resolveCommitExpr st.refs b = some h →
            nextOperation (deleteBranch st b) s = .ok (.commit h))) := by
  refine ⟨?_, ?_, ?_, ?_⟩
  · unfold nextOperation
    cases resolveSession (deleteBranch st b) s <;> simp
  · intro hs
    have hdef : (deleteBranch st b).defaultBranch = st.defaultBranch := rfl
    constructor <;> intro hex <;>
      simp [nextOperation, resolveSession, hs, hdef, hex]
  · intro c hs hcb hex
    have hpre : branchExists (deleteBranch st b).refs c = true := by
      rw [branchExists_deleteBranch st b c hcb]
      exact hex
    constructor <;>
      simp [nextOperation, resolveSession, hs, resolveRevision, hpre, hex]
  · intro hs
    have hbr : branchExists (deleteBranch st b).refs b = false :=
      branchExists_deleteBranch_self st b
    refine ⟨fun htag hcomm => ?_, fun htag => ?_, fun h htag hcomm => ?_⟩
    · simp [nextOperation, resolveSession, hs, resolveRevision, hbr,
        tagExists_deleteBranch, resolveCommitExpr_deleteBranch, htag, hcomm]
    · simp [nextOperation, resolveSession, hs, resolveRevision, hbr,
        tagExists_deleteBranch, htag]
    · simp [nextOperation, resolveSession, hs, resolveRevision, hbr,
        tagExists_deleteBranch, resolveCommitExpr_deleteBranch, htag, hcomm]

/-- Witness: deleting main in the concrete store leaves the session
explicitly bound to keep resolving to keep exactly as before, the implicit
session fails with the structured default-branch-unavailable error, nothing
crashes; deleting keep makes the session bound to keep fail with the
structured revision-not-found error; and the tag and commit fallthrough arms
are exercised on the tag-shadowed name main and on a hash-named branch. -/
theorem delete_branch_session_safe_witness :
    nextOperation (deleteBranch stEx "main") sKeep ≠ .crashed
      ∧ nextOperation (deleteBranch stEx "main") sImplicit
          = .fail .defaultBranchUnavailable
      ∧ nextOperation (deleteBranch stEx "main") sKeep = .ok (.branch "keep")
      ∧ nextOperation stEx sKeep = .ok (.branch "keep")
      ∧ nextOperation (deleteBranch stEx "keep") sKeep = .fail .revisionNotFound
      ∧ nextOperation (deleteBranch stEx "main") sMain = .ok (.tag "main")
      ∧ nextOperation (deleteBranch stHashBr "00000000000000000000000000000001") sHash
          = .ok (.commit "00000000000000000000000000000001") := by
  have h1 := delete_branch_session_safe stEx sKeep "main"
  have h2 := delete_branch_session_safe stEx sImplicit "main"
  have h3 := h1.2.2.1 "keep" rfl (by decide) (by decide)
  have h4 := delete_branch_session_safe stEx sKeep "keep"
  have h5 := delete_branch_session_safe stEx sMain "main"
  have h6 := delete_branch_session_safe stHashBr sHash "00000000000000000000000000000001"
  exact ⟨h1.1, (h2.2.1 rfl).2 (by decide), h3.1, h3.2,
    (h4.2.2.2 rfl).1 (by decide) (by decide),
    (h5.2.2.2 rfl).2.1 (by decide),
    (h6.2.2.2 rfl).2.2 "00000000000000000000000000000001" (by decide) (by decide)⟩

/-- C6: changing the store-wide default branch configuration to an existing
branch takes effect for an already-bound implicit session on its next
resolution, without rebinding the session: even after the previously current
branch is deleted, the unchanged session resolves to the new default and its
next operation succeeds. -/
theorem default_branch_config_takes_effect (st : Store) (s : Session) (k old : String)
    (hs : s.revision = none) (hk : branchExists st.refs k = true) (hko : k ≠ old) :
    nextOperation (deleteBranch (setDefaultBranch st k) old) s = .ok (.branch k) := by
  have hex : branchExists (deleteBranch (setDefaultBranch st k) old).refs k = true := by
    rw [branchExists_deleteBranch (setDefaultBranch st k) old k hko]
    exact hk
  simp [nextOperation, resolveSession, hs, setDefaultBranch, deleteBranch] at *
  simp [hex]

/-- Witness: set the default branch to keep, delete main; the pre-existing
implicit session now resolves to keep. -/
theorem default_branch_config_takes_effect_witness :
    nextOperation (deleteBranch (setDefaultBranch stEx "keep") "main") sImplicit
      = .ok (.branch "keep") :=
  default_branch_config_takes_effect stEx sImplicit "keep" "main" rfl (by decide) (by decide)

end DoltSession
namespace DoltMigrate

theorem translateHash_inj (h k : Hash) (hh : h.version = oldVersion)
    (hk : k.version = oldVersion) (he : translateHash h = translateHash k) : h = k := by
  cases h with
  | mk v a =>
    cases k with
    | mk v2 a2 =>
      simp [translateHash] at he
      simp at hh hk
      rw [hh, hk, he]

theorem lookup_map_translate (g : List (Hash × Node)) (h : Hash)
    (hv : h.version = oldVersion) (hg : ∀ p ∈ g, (Prod.fst p).version = oldVersion) :
    (g.map (fun p => (translateHash p.1, translateNode p.2))).lookup (translateHash h)
      = (g.lookup h).map translateNode := by
  induction g with
  | nil => rfl
  | cons p g ih =>
    have hp : (Prod.fst p).version = oldVersion := hg p (by simp)
    have hrest : ∀ q ∈ g, (Prod.fst q).version = oldVersion :=
      fun q hq => hg q (by simp [hq])
    by_cases he : h = p.1
    · subst he
      simp [List.lookup]
    · have hne : translateHash h ≠ translateHash p.1 :=
        fun hcontra => he (translateHash_inj h p.1 hv hp hcontra)
      have hb1 : (translateHash h == translateHash p.1) = false := by
        simp [hne]
      have hb2 : (h == p.1) = false := by simp [he]
      simp [List.lookup, hb1, hb2, ih hrest]

theorem lookup_eq_of_mem (g : List (Hash × Node)) (h : Hash) (n : Node)
    (hmem : (h, n) ∈ g) (hnd : (g.map (fun p => (Prod.fst p).addr)).Nodup) :
    g.lookup h = some n := by
  induction g with
  | nil => simp at hmem
  | cons p g ih =>
    rw [List.map_cons, List.nodup_cons] at hnd
    rcases List.mem_cons.mp hmem with hh | hh
    · rw [← hh]
      simp [List.lookup]
    · by_cases he : h = p.1
      · exfalso
        apply hnd.1
        rw [← he]
        exact List.mem_map.mpr ⟨(h, n), hh, rfl⟩
      · have hb : (h == p.1) = false := by simp [he]
        simp [List.lookup, hb]
        exact ih hh hnd.2

/-- C4: migration is a lossless round-trip: every unit of the reachable
commit graph decodes after migration, at its translated hash, to logical
content (commit metadata and row values) equal value for value to its
pre-migration decode, while the migrated unit's content hash differs from
the old hash; and every tag name is carried over pointing at the translated
hash of the logical commit it pointed to before (its stored hash value
changes to the new-format identifier, its logical target content does
not). -/
theorem migration_round_trip (s : MigStore) (hwf : WF s) :
    (∀ h n, (h, n) ∈ s.graph →
        logicalContent (migrate s) (translateHash h) = some n.data
          ∧ logicalContent s h = some n.data
          ∧ translateHash h ≠ h)
      ∧ (∀ t h, (t, h) ∈ s.tags →
          (t, translateHash h) ∈ (migrate s).tags
            ∧ logicalContent (migrate s) (translateHash h) = logicalContent s h
            ∧ translateHash h ≠ h) := by
  obtain ⟨hver, hgraph, hnd, hbr, htg⟩ := hwf
  have hne : ∀ h2 : Hash, h2.version = oldVersion → translateHash h2 ≠ h2 := by
    intro h2 hv2 hcontra
    have : (translateHash h2).version = h2.version := congrArg Hash.version hcontra
    rw [hv2] at this
    simp [translateHash, newVersion, oldVersion] at this
  have hlog : ∀ h2 : Hash, h2.version = oldVersion →
      logicalContent (migrate s) (translateHash h2) = logicalContent s h2 := by
    intro h2 hv2
    unfold logicalContent lookupNode migrate
    rw [lookup_map_translate s.graph h2 hv2 hgraph]
    cases s.graph.lookup h2 <;> simp [translateNode]
  constructor
  · intro h n hmem
    have hv : h.version = oldVersion := hgraph (h, n) hmem
    have hold : logicalContent s h = some n.data := by
      unfold logicalContent lookupNode
      rw [lookup_eq_of_mem s.graph h n hmem hnd]
      rfl
    exact ⟨by rw [hlog h hv, hold], hold, hne h hv⟩
  · intro t h hmem
    have hv : h.version = oldVersion := htg (t, h) hmem
    refine ⟨?_, hlog h hv, hne h hv⟩
    unfold migrate
    exact List.mem_map.mpr ⟨(t, h), hmem, rfl⟩

/-- Witness: in the concrete store the tag v1 survives migration pointing at
the translated hash, and both graph units decode to their old logical
content at their new, different hashes. -/
theorem migration_round_trip_witness :
    (logicalContent (migrate msEx) (translateHash ⟨0, 10⟩)
        = some ⟨"root", [["1", "ACADEMY DINOSAUR"]]⟩
      ∧ logicalContent msEx ⟨0, 10⟩ = some ⟨"root", [["1", "ACADEMY DINOSAUR"]]⟩
      ∧ translateHash ⟨0, 10⟩ ≠ ⟨0, 10⟩)
      ∧ (("v1", translateHash ⟨0, 10⟩) ∈ (migrate msEx).tags
        ∧ logicalContent (migrate msEx) (translateHash ⟨0, 10⟩)
            = logicalContent msEx ⟨0, 10⟩) := by
  have h := migration_round_trip msEx (by unfold WF; decide)
  have h1 := h.1 ⟨0, 10⟩ ⟨[], ⟨"root", [["1", "ACADEMY DINOSAUR"]]⟩⟩ (by decide)
  have h2 := h.2 "v1" ⟨0, 10⟩ (by decide)
  exact ⟨⟨h1.1, h1.2.1, h1.2.2⟩, ⟨h2.1, h2.2.1⟩⟩

theorem migrateUnits_error_iff (enc : Node → Bool) (l : List (Hash × Node)) (e : Hash) :
    migrateUnits enc l = .error e
      ↔ (l.find? (fun p => !enc p.2)).map Prod.fst = some e := by
  induction l with
  | nil => simp [migrateUnits]
  | cons p l ih =>
    by_cases hp : enc p.2
    · rw [List.find?_cons_of_neg _ (by simp [hp])]
      rw [← ih]
      simp only [migrateUnits, hp, if_true]
      cases migrateUnits enc l <;> simp
    · rw [List.find?_cons_of_pos _ (by simp [hp])]
      simp [migrateUnits, hp]

theorem migrateUnits_ok_all (enc : Node → Bool) (l : List (Hash × Node)) (g2 : List (Hash × Node))
    (h : migrateUnits enc l = .ok g2) : ∀ p ∈ l, enc p.2 = true := by
  induction l generalizing g2 with
  | nil => simp
  | cons p l ih =>
    by_cases hp : enc p.2
    · intro q hq
      rcases List.mem_cons.mp hq with hh | hh
      · rw [hh]; exact hp
      · simp only [migrateUnits, hp, if_true] at h
        cases hm : migrateUnits enc l with
        | ok acc => exact ih acc hm q hh
        | error e2 => rw [hm] at h; exact absurd h (by simp)
    · simp [migrateUnits, hp] at h

/-- C5: migration is all-or-nothing at the manifest level: whenever the
translation phase reports an error, the store state returned is exactly the
old store, so the old manifest remains authoritative, no partial new-format
state is reachable and the partial translation is discarded; the single
aggregate error carries the hash of the first unit, in traversal order, the
new codec failed on; and when no error is reported every unit was
re-encoded. -/
theorem migration_all_or_nothing (enc : Node → Bool) (s : MigStore) :
    (∀ e, (applyMigration enc s).2 = some e →
        (applyMigration enc s).1 = s
          ∧ (s.graph.find? (fun p => !enc p.2)).map Prod.fst = some e)
      ∧ ((applyMigration enc s).2 = none → ∀ p ∈ s.graph, enc p.2 = true) := by
  unfold applyMigration runMigration
  cases hm : migrateUnits enc s.graph with
  | ok g2 =>
    refine ⟨fun e he => absurd he (by simp), fun _ => migrateUnits_ok_all enc s.graph g2 hm⟩
  | error e2 =>
    refine ⟨fun e he => ?_, fun he => absurd he (by simp)⟩
    have he2 : e2 = e := by simpa using he
    subst he2
    exact ⟨rfl, (migrateUnits_error_iff enc s.graph e2).mp hm⟩

/-- Witness: with the failing codec the migration of the concrete store
keeps the old store authoritative and reports the second unit's hash, the
first failing one in traversal order; with a total codec it reports no
error. -/
theorem migration_all_or_nothing_witness :
    ((applyMigration encFail msEx).1 = msEx
      ∧ (msEx.graph.find? (fun p => !encFail p.2)).map Prod.fst = some ⟨0, 11⟩)
      ∧ (∀ p ∈ msEx.graph, (fun _ => true) p.2 = true) := by
  refine ⟨(migration_all_or_nothing encFail msEx).1 ⟨0, 11⟩ (by decide), ?_⟩
  exact (migration_all_or_nothing (fun _ => true) msEx).2 (by decide)

end DoltMigrate
